import Mathlib

/-!
Verification of the interval-gating primitive in src/IntervalAction.hpp.

The C++ classes IntervalAction, IntervalActionMEMFN and IntervalActionTPL
all hold two uint32_t fields (interval, t_prev), sample a time source, and on
each poll run
  if (timer_function() - t_prev >= interval) { t_prev = timer_function(); func(); }
with uint32_t (mod 2^32) arithmetic.  We embed the state as a structure over
Nat with explicit reduction mod 2^32, and the time source as a stream of
readings indexed by how many samples have been taken so far, so that the two
separate timer calls of a firing poll are visible in the model.
-/

/-- Size of the value range of a w-bit unsigned integer. -/
def wmax (w : Nat) : Nat := 2 ^ w

/-- The modulus of uint32_t arithmetic, the width used by the source. -/
def W : Nat := wmax 32

/-- Unsigned subtraction a - b at bit width w (wraparound / modular semantics). -/
def usubW (w a b : Nat) : Nat := (a % wmax w + (wmax w - b % wmax w)) % wmax w

/-- uint32_t subtraction a - b, as performed by the expression
timer_function() - t_prev in the source. -/
def usub32 (a b : Nat) : Nat := usubW 32 a b

/-- The state held by each of the three classes: the two uint32_t data members
interval and t_prev (src/IntervalAction.hpp lines 61-62, 96-97, 134-135). -/
structure Gate where
  interval : Nat
  t_prev : Nat
deriving DecidableEq

/-- IntervalAction::set_interval (line 48): replaces the stored interval with
the given uint32_t value. -/
def Gate.set_interval (g : Gate) (iv : Nat) : Gate := { g with interval := iv % W }

/-- IntervalAction::get_interval (line 49): pure accessor. -/
def Gate.get_interval (g : Gate) : Nat := g.interval

/-- IntervalAction::get_prev (line 50): pure accessor. -/
def Gate.get_prev (g : Gate) : Nat := g.t_prev

/-- IntervalAction constructor (line 46): stores the interval and samples the
time source once, storing the result as t_prev.  The time source is the stream
timer of successive readings; construction consumes reading 0. -/
def IntervalAction.init (timer : Nat → Nat) (iv : Nat) : Gate :=
  { interval := iv % W, t_prev := timer 0 % W }

/-- IntervalAction::operator() (lines 52-57).  timer is the stream of values
returned by successive timer_function() calls and k the index of the next
unread sample; func is the unit of work, which may mutate the gate it captures
(e.g. call set_interval).  Returns the gate after the poll, whether func was
invoked, and the index after the samples consumed by this poll. -/
def IntervalAction.call (timer : Nat → Nat) (k : Nat) (func : Gate → Gate)
    (g : Gate) : Gate × Bool × Nat :=
  let now := timer k % W
  if usub32 now g.t_prev ≥ g.interval then
    let t2 := timer (k + 1) % W
    (func { g with t_prev := t2 }, true, k + 2)
  else
    (g, false, k + 1)

/-- n successive polls of IntervalAction::operator() starting at sample index
k, each with unit of work func; returns the final gate and the list of
fire decisions. -/
def IntervalAction.runPolls (timer : Nat → Nat) (func : Gate → Gate) :
    Nat → Gate → Nat → Gate × List Bool
  | _, g, 0 => (g, [])
  | k, g, n + 1 =>
    let r := IntervalAction.call timer k func g
    let rest := IntervalAction.runPolls timer func r.2.2 r.1 n
    (rest.1, r.2.1 :: rest.2)

/-- IntervalActionMEMFN constructor (lines 78-81): stores the interval and
samples the time source once through the member-function pointer on the
referenced clock object; the clock's stream of readings is timer. -/
def IntervalActionMEMFN.init (timer : Nat → Nat) (iv : Nat) : Gate :=
  { interval := iv % W, t_prev := timer 0 % W }

/-- IntervalActionMEMFN::operator() (lines 87-92): identical body, with the
time source read through the stored clock reference. -/
def IntervalActionMEMFN.call (timer : Nat → Nat) (k : Nat) (func : Gate → Gate)
    (g : Gate) : Gate × Bool × Nat :=
  let now := timer k % W
  if usub32 now g.t_prev ≥ g.interval then
    let t2 := timer (k + 1) % W
    (func { g with t_prev := t2 }, true, k + 2)
  else
    (g, false, k + 1)

/-- n successive polls of IntervalActionMEMFN::operator(). -/
def IntervalActionMEMFN.runPolls (timer : Nat → Nat) (func : Gate → Gate) :
    Nat → Gate → Nat → Gate × List Bool
  | _, g, 0 => (g, [])
  | k, g, n + 1 =>
    let r := IntervalActionMEMFN.call timer k func g
    let rest := IntervalActionMEMFN.runPolls timer func r.2.2 r.1 n
    (rest.1, r.2.1 :: rest.2)

/-- IntervalActionTPL constructor (lines 115-118): stores the callable
reference and the interval, then samples the callable once. -/
def IntervalActionTPL.init (timer : Nat → Nat) (iv : Nat) : Gate :=
  { interval := iv % W, t_prev := timer 0 % W }

/-- IntervalActionTPL::operator() (lines 124-129): identical body, with the
time source read through the stored callable reference. -/
def IntervalActionTPL.call (timer : Nat → Nat) (k : Nat) (func : Gate → Gate)
    (g : Gate) : Gate × Bool × Nat :=
  let now := timer k % W
  if usub32 now g.t_prev ≥ g.interval then
    let t2 := timer (k + 1) % W
    (func { g with t_prev := t2 }, true, k + 2)
  else
    (g, false, k + 1)

/-- n successive polls of IntervalActionTPL::operator(). -/
def IntervalActionTPL.runPolls (timer : Nat → Nat) (func : Gate → Gate) :
    Nat → Gate → Nat → Gate × List Bool
  | _, g, 0 => (g, [])
  | k, g, n + 1 =>
    let r := IntervalActionTPL.call timer k func g
    let rest := IntervalActionTPL.runPolls timer func r.2.2 r.1 n
    (rest.1, r.2.1 :: rest.2)

/-- A poll of IntervalAction::operator() performed entirely at time t: both
timer samples of the poll return t (the time source does not advance within
the poll) and the unit of work does not touch the gate. -/
def pollAt (g : Gate) (t : Nat) : Gate × Bool :=
  let r := IntervalAction.call (fun _ => t) 0 id g
  (r.1, r.2.1)

/-- A sequence of polls, poll i performed entirely at time ts[i]; returns the
final gate and the fire decisions. -/
def runAt : Gate → List Nat → Gate × List Bool
  | g, [] => (g, [])
  | g, t :: ts =>
    let r := pollAt g t
    let rest := runAt r.1 ts
    (rest.1, r.2 :: rest.2)

/-- The gating step of operator() with the uint32_t width generalized to a
parameter w; the source fixes w = 32. -/
def pollAtW (w : Nat) (g : Gate) (t : Nat) : Gate × Bool :=
  if usubW w t g.t_prev ≥ g.interval then
    ({ g with t_prev := t % wmax w }, true)
  else (g, false)

/-- Modelled from the spec: property P1's reference gating rule, with exact
(non-modular) arithmetic over a wraparound-free run.  Fires at time t when
t - lf ≥ I and then records lf := t; returns the fire decisions and the final
last-fire value. -/
def gateSpec (I : Nat) : Nat → List Nat → List Bool × Nat
  | lf, [] => ([], lf)
  | lf, t :: ts =>
    if t - lf ≥ I then
      let r := gateSpec I t ts
      (true :: r.1, r.2)
    else
      let r := gateSpec I lf ts
      (false :: r.1, r.2)

lemma wmax32_eq : wmax 32 = 4294967296 := by norm_num [wmax]

lemma usub32_exact (a b : Nat) (hba : b ≤ a) (ha : a < W) : usub32 a b = a - b := by
  simp only [usub32, usubW, W, wmax32_eq] at *
  omega

lemma usub32_wrap (b d : Nat) (_hb : b < W) (hd : d < W) :
    usub32 ((b + d) % W) b = d := by
  simp only [usub32, usubW, W, wmax32_eq] at *
  omega

lemma usub32_mod_self (t : Nat) : usub32 t (t % W) = 0 := by
  simp only [usub32, usubW, W, wmax32_eq] at *
  omega

lemma usub32_mod_left (a b : Nat) : usub32 (a % W) b = usub32 a b := by
  simp only [usub32, usubW, W, wmax32_eq] at *
  omega

/-- A single poll at time t is the w = 32 gating step at time t. -/
lemma pollAt_eq (g : Gate) (t : Nat) :
    pollAt g t =
      if usub32 t g.t_prev ≥ g.interval then
        ({ g with t_prev := t % W }, true)
      else (g, false) := by
  simp only [pollAt, IntervalAction.call, usub32_mod_left]
  by_cases h : usub32 t g.t_prev ≥ g.interval <;> simp [h]

lemma gating_correct_aux (ts : List Nat) : ∀ (g : Gate),
    List.Pairwise (· < ·) ts →
    (∀ t ∈ ts, t < W) →
    (∀ t ∈ ts, g.t_prev ≤ t) →
    (runAt g ts).2 = (gateSpec g.interval g.t_prev ts).1 ∧
    (runAt g ts).1 = ⟨g.interval, (gateSpec g.interval g.t_prev ts).2⟩ := by
  induction ts with
  | nil => exact fun g _ _ _ => ⟨rfl, rfl⟩
  | cons t ts ih =>
    intro g hp hW hprev
    have ht : t < W := hW t (by simp)
    have hpt : g.t_prev ≤ t := hprev t (by simp)
    have hu : usub32 t g.t_prev = t - g.t_prev := usub32_exact t g.t_prev hpt ht
    have htW : t % W = t := Nat.mod_eq_of_lt ht
    rw [List.pairwise_cons] at hp
    by_cases hc : g.interval ≤ t - g.t_prev
    · have ih2 := ih ⟨g.interval, t⟩ hp.2
        (fun x hx => hW x (List.mem_cons_of_mem _ hx))
        (fun x hx => Nat.le_of_lt (hp.1 x hx))
      simp only [runAt, pollAt_eq, hu, htW, gateSpec, ge_iff_le, hc, if_true, if_pos]
      exact ⟨congrArg (List.cons true) ih2.1, ih2.2⟩
    · have ih2 := ih g hp.2
        (fun x hx => hW x (List.mem_cons_of_mem _ hx))
        (fun x hx => Nat.le_trans hpt (Nat.le_of_lt (hp.1 x hx)))
      simp only [runAt, pollAt_eq, hu, gateSpec, ge_iff_le, hc, if_false, if_neg]
      exact ⟨congrArg (List.cons false) ih2.1, ih2.2⟩

/-- C1: over a wraparound-free strictly increasing sequence of poll times, a
poll fires exactly when its time minus the last-fire value before it reaches
the interval, and a firing poll stores exactly its own poll time; the interval
is never changed.  The run of the code agrees pointwise with the reference
rule gateSpec taken from P1. -/
theorem intervalAction_gating_correct (g : Gate) (ts : List Nat)
    (hchain : List.Chain' (· < ·) ts)
    (hW : ∀ t ∈ ts, t < W)
    (hprev : ∀ t ∈ ts, g.t_prev ≤ t) :
    (runAt g ts).2 = (gateSpec g.interval g.t_prev ts).1 ∧
    (runAt g ts).1 = ⟨g.interval, (gateSpec g.interval g.t_prev ts).2⟩ :=
  gating_correct_aux ts g (List.chain'_iff_pairwise.mp hchain) hW hprev

/-- Witness for C1: the spec's scenario (construction at 1000, interval 500,
polls at 1200, 1600, 1650 fire as no / yes / no, last fire ends at 1600). -/
theorem intervalAction_gating_correct_witness :
    (runAt ⟨500, 1000⟩ [1200, 1600, 1650]).2 = [false, true, false] ∧
    (runAt ⟨500, 1000⟩ [1200, 1600, 1650]).1 = ⟨500, 1600⟩ := by
  have h := intervalAction_gating_correct ⟨500, 1000⟩ [1200, 1600, 1650]
    (by norm_num [List.chain'_cons]) (by decide) (by decide)
  exact ⟨h.1.trans (by decide), h.2.trans (by decide)⟩

/-- C2: the computed elapsed value is modular subtraction at the shared fixed
width, so a wrapped time source still gates correctly: at the source's 32-bit
width the computed elapsed time equals the true elapsed time for any
wrapped reading, and in the spec's 8-bit illustration (last fire 250,
interval 10, now 4 post-wrap) the elapsed value is 10 and the gate fires;
the analogous post-wrap poll at the real 32-bit width also fires. -/
theorem elapsed_wraparound_safe (b d : Nat) (hb : b < W) (hd : d < W) :
    usub32 ((b + d) % W) b = d ∧
    usubW 8 4 250 = 10 ∧
    pollAtW 8 ⟨10, 250⟩ 4 = (⟨10, 4⟩, true) ∧
    pollAt ⟨10, 4294967290⟩ 4 = (⟨10, 4⟩, true) :=
  ⟨usub32_wrap b d hb hd, by decide, by decide, by decide⟩

/-- Witness for C2: a 32-bit reading wrapped from 4294967290 by 10 true
time-units lands on 4 and the computed elapsed value is exactly 10. -/
theorem elapsed_wraparound_safe_witness :
    usub32 ((4294967290 + 10) % W) 4294967290 = 10 ∧ usubW 8 4 250 = 10 := by
  have h := elapsed_wraparound_safe 4294967290 10 (by decide) (by decide)
  exact ⟨h.1, h.2.1⟩

lemma runAt_below_threshold (g : Gate) (ts : List Nat) :
    (∀ t ∈ ts, usub32 t g.t_prev < g.interval) →
    runAt g ts = (g, ts.map fun _ => false) := by
  induction ts with
  | nil => exact fun _ => rfl
  | cons t ts ih =>
    intro hts
    have hlt := hts t (by simp)
    have ih2 := ih (fun x hx => hts x (by simp [hx]))
    simp only [runAt, pollAt_eq, ge_iff_le, if_neg (Nat.not_le.mpr hlt), List.map_cons]
    simp [ih2]

/-- C3: a poll whose elapsed value is below the interval has no observable
effect: the gate (interval and t_prev) is unchanged and the unit of work is
not invoked, with any unit of work; and any number of repeated below-threshold
polls leaves the gate unchanged and never fires. -/
theorem nonfiring_poll_no_effects (timer : Nat → Nat) (k : Nat)
    (func : Gate → Gate) (g : Gate) (ts : List Nat)
    (hlow : usub32 (timer k) g.t_prev < g.interval)
    (hts : ∀ t ∈ ts, usub32 t g.t_prev < g.interval) :
    IntervalAction.call timer k func g = (g, false, k + 1) ∧
    runAt g ts = (g, ts.map fun _ => false) := by
  refine ⟨?_, runAt_below_threshold g ts hts⟩
  simp only [IntervalAction.call, usub32_mod_left, ge_iff_le,
    if_neg (Nat.not_le.mpr hlow)]

/-- Witness for C3: interval 100, last fire 50, three polls at 60, 70, 80
(elapsed 10, 20, 30, all below 100) leave the gate untouched and never fire. -/
theorem nonfiring_poll_no_effects_witness :
    IntervalAction.call (fun _ => 60) 0 id ⟨100, 50⟩ = (⟨100, 50⟩, false, 1) ∧
    runAt ⟨100, 50⟩ [60, 70, 80] = (⟨100, 50⟩, [false, false, false]) := by
  have h := nonfiring_poll_no_effects (fun _ => 60) 0 id ⟨100, 50⟩ [60, 70, 80]
    (by decide) (by decide)
  exact ⟨h.1, h.2.trans (by decide)⟩

/-- C4: with interval 0 every poll fires, whatever the elapsed time: the unit
of work is invoked and t_prev is updated to the poll time. -/
theorem zero_interval_always_fires (g : Gate) (t : Nat) (h : g.interval = 0) :
    pollAt g t = ({ g with t_prev := t % W }, true) := by
  rw [pollAt_eq, if_pos]
  exact h ▸ Nat.zero_le _

/-- Witness for C4: interval 0, last fire 1000, poll again at 1000 (elapsed
zero) still fires. -/
theorem zero_interval_always_fires_witness :
    pollAt ⟨0, 1000⟩ 1000 = (⟨0, 1000⟩, true) :=
  (zero_interval_always_fires ⟨0, 1000⟩ 1000 rfl).trans (by decide)

/-- C5: construction stores the given interval and one fresh timer sample as
t_prev, so the first poll at a later wraparound-free time fires exactly when
the interval has elapsed since construction time, never unconditionally. -/
theorem construction_samples_time (timer : Nat → Nat) (iv t : Nat)
    (hle : timer 0 % W ≤ t) (ht : t < W) :
    (IntervalAction.init timer iv).interval = iv % W ∧
    (IntervalAction.init timer iv).t_prev = timer 0 % W ∧
    ((pollAt (IntervalAction.init timer iv) t).2 = true ↔
      iv % W ≤ t - timer 0 % W) := by
  refine ⟨rfl, rfl, ?_⟩
  have hu : usub32 t (timer 0 % W) = t - timer 0 % W :=
    usub32_exact t (timer 0 % W) hle ht
  by_cases hc : iv % W ≤ t - timer 0 % W
  · simp [pollAt_eq, IntervalAction.init, hu, hc]
  · simp [pollAt_eq, IntervalAction.init, hu, hc]

/-- Witness for C5: a gate built at time 1000 with interval 500 has t_prev
1000 and does not fire at the first poll at 1200. -/
theorem construction_samples_time_witness :
    (IntervalAction.init (fun _ => 1000) 500).t_prev = 1000 ∧
    (pollAt (IntervalAction.init (fun _ => 1000) 500) 1200).2 = false := by
  have h := construction_samples_time (fun _ => 1000) 500 1200 (by decide) (by decide)
  have hf : ¬ (500 % W ≤ 1200 - 1000 % W) := by decide
  refine ⟨h.2.1.trans (by decide), ?_⟩
  cases hb : (pollAt (IntervalAction.init (fun _ => 1000) 500) 1200).2
  · rfl
  · exact absurd (h.2.2.mp hb) hf

/-- C6: with a positive interval, two consecutive polls at the same time fire
at most once in total; if the first fires, the second computes elapsed 0 and
does not fire. -/
theorem no_double_fire_same_time (g : Gate) (t : Nat) (hI : 0 < g.interval) :
    ¬((pollAt g t).2 = true ∧ (pollAt (pollAt g t).1 t).2 = true) ∧
    ((pollAt g t).2 = true →
      usub32 t (pollAt g t).1.t_prev = 0 ∧
      (pollAt (pollAt g t).1 t).2 = false) := by
  by_cases hc : g.interval ≤ usub32 t g.t_prev
  · have h2 : ¬ (g.interval ≤ usub32 t (t % W)) := by
      rw [usub32_mod_self]; omega
    simp only [pollAt_eq, ge_iff_le, hc, if_pos, if_neg h2]
    simp [usub32_mod_self]
  · simp only [pollAt_eq, ge_iff_le, if_neg hc]
    simp

/-- Witness for C6: interval 10, last fire 100, two polls at 120: the pair
does not fire twice. -/
theorem no_double_fire_same_time_witness :
    ¬((pollAt ⟨10, 100⟩ 120).2 = true ∧
      (pollAt (pollAt ⟨10, 100⟩ 120).1 120).2 = true) :=
  (no_double_fire_same_time ⟨10, 100⟩ 120 (by decide)).1

/-- C7: on a firing poll t_prev is updated before the unit of work is
invoked: the gate the unit of work receives already holds the new timestamp,
and a reentrant poll of that gate at the stored timestamp (with a positive
interval) does not fire again within the same poll. -/
theorem update_before_invocation (timer : Nat → Nat) (k : Nat)
    (func : Gate → Gate) (g : Gate)
    (hfire : usub32 (timer k) g.t_prev ≥ g.interval) :
    (IntervalAction.call timer k func g).1 =
      func { g with t_prev := timer (k + 1) % W } ∧
    (0 < g.interval →
      (pollAt { g with t_prev := timer (k + 1) % W } (timer (k + 1))).2 =
        false) := by
  constructor
  · simp only [IntervalAction.call, usub32_mod_left, ge_iff_le]
    rw [if_pos hfire]
  · intro hI
    rw [pollAt_eq]
    have h0 : usub32 (timer (k + 1)) (timer (k + 1) % W) = 0 := usub32_mod_self _
    simp only [h0, ge_iff_le]
    rw [if_neg (by simp [h0]; omega)]

/-- Witness for C7: interval 10, last fire 50, readings 100 then 105: the
unit of work sees t_prev already equal to 105, and re-polling at 105 does not
fire. -/
theorem update_before_invocation_witness :
    (IntervalAction.call (fun i => 100 + 5 * i) 0 id ⟨10, 50⟩).1 = ⟨10, 105⟩ ∧
    (pollAt (⟨10, 105⟩ : Gate) 105).2 = false := by
  have h := update_before_invocation (fun i => 100 + 5 * i) 0 id ⟨10, 50⟩ (by decide)
  exact ⟨h.1.trans (by decide), by
    have h2 := h.2 (by decide)
    exact (by decide : (pollAt (⟨10, 105⟩ : Gate) 105).2 =
      (pollAt ({ (⟨10, 50⟩ : Gate) with t_prev := (100 + 5 * 1) % W })
        (100 + 5 * 1)).2).trans h2⟩

/-- C8: when the unit of work calls set_interval, the fire decision of the
poll in flight still uses the old interval, and after a firing poll the new
interval is what every next poll compares against. -/
theorem set_interval_next_poll (timer : Nat → Nat) (k : Nat) (J : Nat)
    (g : Gate) :
    ((IntervalAction.call timer k (fun g2 => g2.set_interval J) g).2.1 =
      decide (usub32 (timer k) g.t_prev ≥ g.interval)) ∧
    ((IntervalAction.call timer k (fun g2 => g2.set_interval J) g).2.1 = true →
      (IntervalAction.call timer k (fun g2 => g2.set_interval J) g).1.interval
        = J % W ∧
      ∀ t, (pollAt (IntervalAction.call timer k
          (fun g2 => g2.set_interval J) g).1 t).2 =
        decide (usub32 t (timer (k + 1) % W) ≥ J % W)) := by
  by_cases hc : g.interval ≤ usub32 (timer k) g.t_prev
  · constructor
    · simp [IntervalAction.call, usub32_mod_left, hc]
    · intro _
      constructor
      · simp [IntervalAction.call, usub32_mod_left, hc, Gate.set_interval]
      · intro t
        by_cases h2 : J % W ≤ usub32 t (timer (k + 1) % W)
        · simp [IntervalAction.call, usub32_mod_left, hc, Gate.set_interval,
            pollAt_eq, h2]
        · simp [IntervalAction.call, usub32_mod_left, hc, Gate.set_interval,
            pollAt_eq, h2]
  · constructor
    · simp [IntervalAction.call, usub32_mod_left, hc]
    · intro hfired
      exfalso
      simp [IntervalAction.call, usub32_mod_left, hc] at hfired

/-- Witness for C8: interval 50, last fire 0, readings 100 then 200, unit of
work switches the interval to 7: the poll fires on the old interval and the
stored interval afterwards is 7. -/
theorem set_interval_next_poll_witness :
    (IntervalAction.call (fun i => 100 * (i + 1)) 0
      (fun g2 => g2.set_interval 7) ⟨50, 0⟩).2.1 = true ∧
    (IntervalAction.call (fun i => 100 * (i + 1)) 0
      (fun g2 => g2.set_interval 7) ⟨50, 0⟩).1.interval = 7 := by
  have h := set_interval_next_poll (fun i => 100 * (i + 1)) 0 7 ⟨50, 0⟩
  have h1 : (IntervalAction.call (fun i => 100 * (i + 1)) 0
      (fun g2 => g2.set_interval 7) ⟨50, 0⟩).2.1 = true := h.1.trans (by decide)
  exact ⟨h1, ((h.2 h1).1).trans (by decide)⟩

lemma runPolls_MEMFN_eq (timer : Nat → Nat) (func : Gate → Gate) :
    ∀ n k g, IntervalAction.runPolls timer func k g n =
      IntervalActionMEMFN.runPolls timer func k g n := by
  intro n
  induction n with
  | zero => intro k g; rfl
  | succ n ih =>
    intro k g
    simp only [IntervalAction.runPolls, IntervalActionMEMFN.runPolls]
    rw [show IntervalActionMEMFN.call timer k func g =
      IntervalAction.call timer k func g from rfl, ih]

lemma runPolls_TPL_eq (timer : Nat → Nat) (func : Gate → Gate) :
    ∀ n k g, IntervalAction.runPolls timer func k g n =
      IntervalActionTPL.runPolls timer func k g n := by
  intro n
  induction n with
  | zero => intro k g; rfl
  | succ n ih =>
    intro k g
    simp only [IntervalAction.runPolls, IntervalActionTPL.runPolls]
    rw [show IntervalActionTPL.call timer k func g =
      IntervalAction.call timer k func g from rfl, ih]

/-- C9: the three time-source variants have identical gating semantics: from
the same initial interval and the same stream of time-source readings, after
any number of polls (hence throughout the run) the fire decisions coincide
and the gates hold equal interval and t_prev. -/
theorem variants_equivalent (timer : Nat → Nat) (func : Gate → Gate)
    (iv n : Nat) :
    (IntervalAction.runPolls timer func 1 (IntervalAction.init timer iv) n =
      IntervalActionMEMFN.runPolls timer func 1
        (IntervalActionMEMFN.init timer iv) n) ∧
    (IntervalAction.runPolls timer func 1 (IntervalAction.init timer iv) n =
      IntervalActionTPL.runPolls timer func 1
        (IntervalActionTPL.init timer iv) n) :=
  ⟨runPolls_MEMFN_eq timer func n 1 (IntervalAction.init timer iv),
   runPolls_TPL_eq timer func n 1 (IntervalAction.init timer iv)⟩

/-- C10: a firing poll reads the time source exactly twice (the sample index
advances by two) and stores the second reading as t_prev, while a non-firing
poll reads it exactly once and leaves the gate unchanged; so when the source
advances between the two reads, the stored t_prev is the later second
reading, not the value compared against the interval. -/
theorem firing_poll_samples_twice (timer : Nat → Nat) (k : Nat)
    (func : Gate → Gate) (g : Gate) :
    ((IntervalAction.call timer k func g).2.1 = true →
      (IntervalAction.call timer k func g).2.2 = k + 2 ∧
      (IntervalAction.call timer k func g).1 =
        func { g with t_prev := timer (k + 1) % W }) ∧
    ((IntervalAction.call timer k func g).2.1 = false →
      (IntervalAction.call timer k func g).2.2 = k + 1 ∧
      (IntervalAction.call timer k func g).1 = g) := by
  by_cases hc : g.interval ≤ usub32 (timer k % W) g.t_prev
  · simp [IntervalAction.call, hc]
  · simp [IntervalAction.call, hc]

/-- Witness for C10: interval 10, last fire 50, readings 100 then 105: the
poll fires, consumes two samples, and stores 105 (the second reading, not the
compared 100). -/
theorem firing_poll_samples_twice_witness :
    (IntervalAction.call (fun i => 100 + 5 * i) 0 id ⟨10, 50⟩).2.2 = 2 ∧
    (IntervalAction.call (fun i => 100 + 5 * i) 0 id ⟨10, 50⟩).1 =
      ⟨10, 105⟩ := by
  have h := (firing_poll_samples_twice (fun i => 100 + 5 * i) 0 id
    ⟨10, 50⟩).1 (by decide)
  exact ⟨h.1, h.2.trans (by decide)⟩
